import Mathlib

/-!
Verification of the daze tunneling proxy (src/daze.py) against its
natural-language specification.  Python code is shallowly embedded:
byte strings become `List Nat` (each entry a byte value), fallible
code becomes `Except`, external effects (sockets, DNS, the system
clock) become explicit parameters.
-/

set_option maxRecDepth 100000

namespace Daze

/-! ## Cipher (RC4), src/daze.py lines 31-60 -/

/-- Python `self.s[i], self.s[j] = self.s[j], self.s[i]`: the right-hand
tuple is evaluated first, then both positions are assigned. -/
def listSwap (s : List Nat) (i j : Nat) : List Nat :=
  let a := s.getD i 0
  let b := s.getD j 0
  (s.set i b).set j a

/-- The mutable state of `Cipher`: the table `s` and the running
indices `i`, `j`. -/
structure Cipher where
  s : List Nat
  i : Nat
  j : Nat
  deriving Repr, DecidableEq

/-- One iteration of the key-scheduling loop of `Cipher.__init__`
(lines 44-46): `j = (j + self.s[i] + key[i % k]) % 256` then swap. -/
def ksaStep (key : List Nat) (sj : List Nat × Nat) (i : Nat) : List Nat × Nat :=
  let j := (sj.2 + sj.1.getD i 0 + key.getD (i % key.length) 0) % 256
  (listSwap sj.1 i j, j)

/-- Key scheduling loop of `Cipher.__init__` (lines 43-46):
`for i in range(256): j = (j + self.s[i] + key[i % k]) % 256; swap`. -/
def ksa (key : List Nat) : List Nat :=
  ((List.range 256).foldl (ksaStep key) (List.range 256, 0)).1

/-- Embedding of `Cipher.__init__` (lines 32-46): raises `KeySizeError` unless
`1 <= len(key) <= 256`, then runs the key schedule and sets `i = j = 0`. -/
def Cipher.new (key : List Nat) : Except String Cipher :=
  if key.length < 1 ∨ key.length > 256 then
    Except.error "crypto/rc4: invalid key size"
  else
    Except.ok ⟨ksa key, 0, 0⟩

/-- One iteration of the loop body of `xor_key_stream_generic`
(lines 55-58): advance `i`, `j`, swap, and XOR the byte `v` with
`s[(s[i] + s[j]) % 256] % 256`. -/
def xksStep (c : Cipher) (v : Nat) : Cipher × Nat :=
  let i := (c.i + 1) % 256
  let j := (c.j + c.s.getD i 0 % 256) % 256
  let s := listSwap c.s i j
  (⟨s, i, j⟩, v ^^^ s.getD ((s.getD i 0 + s.getD j 0) % 256) 0 % 256)

/-- Embedding of `Cipher.xor_key_stream_generic` (lines 51-60): transforms the
byte list `src`, returning the advanced cipher and the output bytes. -/
def xor_key_stream_generic (c : Cipher) : List Nat → Cipher × List Nat
  | [] => (c, [])
  | v :: rest =>
    let st := xksStep c v
    let next := xor_key_stream_generic st.1 rest
    (next.1, st.2 :: next.2)

/-- A sequence of `GravityDazeConn.send` calls (lines 70-72): each chunk
is transformed through the same keystream in order; the wire stream is
the concatenation of the transformed chunks. (`recv`, lines 74-77, is
the same computation on the read-side keystream.) -/
def sendChunks (c : Cipher) : List (List Nat) → Cipher × List Nat
  | [] => (c, [])
  | d :: rest =>
    let st := xor_key_stream_generic c d
    let next := sendChunks st.1 rest
    (next.1, st.2 ++ next.2)

/-! ### Keystream lemmas -/

theorem xksStep_fst_const (c : Cipher) (v w : Nat) :
    (xksStep c v).1 = (xksStep c w).1 := rfl

theorem xksStep_involutive (c : Cipher) (v : Nat) :
    (xksStep c ((xksStep c v).2)).2 = v := by
  simp only [xksStep]
  exact Nat.xor_cancel_right _ _

theorem xks_snd_length (src : List Nat) : ∀ c : Cipher,
    (xor_key_stream_generic c src).2.length = src.length := by
  induction src with
  | nil => intro c; rfl
  | cons v rest ih =>
    intro c
    simp only [xor_key_stream_generic, List.length_cons]
    rw [ih]

theorem xks_involutive (src : List Nat) : ∀ c : Cipher,
    xor_key_stream_generic c ((xor_key_stream_generic c src).2)
      = ((xor_key_stream_generic c src).1, src) := by
  induction src with
  | nil => intro c; rfl
  | cons v rest ih =>
    intro c
    simp only [xor_key_stream_generic]
    rw [xksStep_fst_const c ((xksStep c v).2) v, ih, xksStep_involutive]

theorem xks_append (a b : List Nat) : ∀ c : Cipher,
    xor_key_stream_generic c (a ++ b)
      = ((xor_key_stream_generic (xor_key_stream_generic c a).1 b).1,
         (xor_key_stream_generic c a).2
           ++ (xor_key_stream_generic (xor_key_stream_generic c a).1 b).2) := by
  induction a with
  | nil => intro c; rfl
  | cons v rest ih =>
    intro c
    simp only [List.cons_append, xor_key_stream_generic, List.append_eq]
    rw [ih]

theorem sendChunks_eq_join (P : List (List Nat)) : ∀ c : Cipher,
    sendChunks c P = xor_key_stream_generic c P.flatten := by
  induction P with
  | nil => intro c; rfl
  | cons d rest ih =>
    intro c
    simp only [sendChunks, List.flatten_cons, xks_append]
    rw [ih]

/-! ### Permutation invariant of the cipher state -/

theorem cons_set_perm (x : Nat) : ∀ (xs : List Nat) (j : Nat), j < xs.length →
    List.Perm (xs.getD j 0 :: xs.set j x) (x :: xs) := by
  intro xs
  induction xs with
  | nil => intro j hj; simp at hj
  | cons y t ih =>
    intro j hj
    cases j with
    | zero => exact List.Perm.swap x y t
    | succ j =>
      simp only [List.getD_cons_succ, List.set_cons_succ]
      have h1 : List.Perm (t.getD j 0 :: y :: t.set j x) (y :: t.getD j 0 :: t.set j x) :=
        List.Perm.swap y (t.getD j 0) (t.set j x)
      have h2 : List.Perm (y :: t.getD j 0 :: t.set j x) (y :: x :: t) :=
        List.Perm.cons y (ih j (by simpa using hj))
      exact (h1.trans h2).trans (List.Perm.swap x y t)

theorem listSwap_perm : ∀ (l : List Nat) (i j : Nat), i < l.length → j < l.length →
    List.Perm (listSwap l i j) l := by
  intro l
  induction l with
  | nil => intro i j hi _; simp at hi
  | cons x t ih =>
    intro i j hi hj
    cases i with
    | zero =>
      cases j with
      | zero => simp [listSwap]
      | succ j =>
        simp only [listSwap, List.getD_cons_succ, List.getD_cons_zero,
          List.set_cons_zero, List.set_cons_succ]
        exact cons_set_perm x t j (by simpa using hj)
    | succ i =>
      cases j with
      | zero =>
        simp only [listSwap, List.getD_cons_succ, List.getD_cons_zero,
          List.set_cons_zero, List.set_cons_succ]
        exact cons_set_perm x t i (by simpa using hi)
      | succ j =>
        simp only [listSwap, List.getD_cons_succ, List.set_cons_succ]
        exact List.Perm.cons x (ih i j (by simpa using hi) (by simpa using hj))

/-- The state invariant of `Cipher` (claim C9): `s` is a permutation of
`0..255` and both running indices are in `0..255`. -/
def CipherInv (c : Cipher) : Prop :=
  List.Perm c.s (List.range 256) ∧ c.i < 256 ∧ c.j < 256

theorem length_of_perm_range {s : List Nat} (h : List.Perm s (List.range 256)) :
    s.length = 256 := by
  rw [h.length_eq, List.length_range]

theorem mem_lt_of_perm_range {s : List Nat} (h : List.Perm s (List.range 256)) :
    ∀ v ∈ s, v < 256 := by
  intro v hv
  have := h.mem_iff.mp hv
  simpa [List.mem_range] using this

theorem listSwap_length (l : List Nat) (i j : Nat) :
    (listSwap l i j).length = l.length := by
  simp [listSwap]

theorem xksStep_inv {c : Cipher} (h : CipherInv c) (v : Nat) :
    CipherInv (xksStep c v).1 := by
  obtain ⟨hs, _, _⟩ := h
  have hlen : c.s.length = 256 := length_of_perm_range hs
  refine ⟨?_, ?_, ?_⟩
  · exact (listSwap_perm c.s _ _ (by rw [hlen]; exact Nat.mod_lt _ (by norm_num))
      (by rw [hlen]; exact Nat.mod_lt _ (by norm_num))).trans hs
  · exact Nat.mod_lt _ (by norm_num)
  · exact Nat.mod_lt _ (by norm_num)

theorem xks_inv : ∀ (src : List Nat) (c : Cipher), CipherInv c →
    CipherInv (xor_key_stream_generic c src).1 := by
  intro src
  induction src with
  | nil => intro c h; exact h
  | cons v rest ih =>
    intro c h
    exact ih _ (xksStep_inv h v)

theorem ksa_fold_perm (key : List Nat) : ∀ (l : List Nat) (s : List Nat) (j : Nat),
    (∀ i ∈ l, i < 256) → List.Perm s (List.range 256) →
    List.Perm ((l.foldl (ksaStep key) (s, j)).1) (List.range 256) := by
  intro l
  induction l with
  | nil => intro s j _ hs; exact hs
  | cons i rest ih =>
    intro s j hmem hs
    simp only [List.foldl_cons]
    refine ih _ _ (fun a ha => hmem a (List.mem_cons_of_mem i ha)) ?_
    exact (listSwap_perm s _ _
      (by rw [length_of_perm_range hs]; exact hmem i (List.mem_cons_self i rest))
      (by rw [length_of_perm_range hs]; exact Nat.mod_lt _ (by norm_num))).trans hs

theorem ksa_perm (key : List Nat) : List.Perm (ksa key) (List.range 256) := by
  rw [ksa]
  exact ksa_fold_perm key (List.range 256) (List.range 256) 0
    (fun _ hi => List.mem_range.mp hi) (List.Perm.refl _)

theorem cipherInv_mk {s : List Nat} {i j : Nat} (hs : List.Perm s (List.range 256))
    (hi : i < 256) (hj : j < 256) : CipherInv ⟨s, i, j⟩ :=
  ⟨hs, hi, hj⟩

theorem cipherInv_new {key : List Nat} {c : Cipher}
    (h : Cipher.new key = Except.ok c) : CipherInv c := by
  rw [Cipher.new] at h
  by_cases hk : key.length < 1 ∨ key.length > 256
  · rw [if_pos hk] at h
    exact absurd h (by simp)
  · rw [if_neg hk] at h
    have hc := (Except.ok.inj h).symm
    subst hc
    exact cipherInv_mk (ksa_perm key) (by norm_num) (by norm_num)

/-! ### The keystream as the spec words it (§4.1), for claim C2 -/

/-- Modelled from the spec §4.1, step 2: with `j = 0`, for `i` in 0..256:
`j = (j + S[i] + K[i mod k]) mod 256`; swap `S[i]` with `S[j]`. -/
def specScheduleStep (K : List Nat) (sj : List Nat × Nat) (i : Nat) : List Nat × Nat :=
  let j := (sj.2 + sj.1.getD i 0 + K.getD (i % K.length) 0) % 256
  (listSwap sj.1 i j, j)

/-- Modelled from the spec §4.1: the full key schedule, starting from the
identity table. -/
def specSchedule (K : List Nat) : List Nat :=
  ((List.range 256).foldl (specScheduleStep K) (List.range 256, 0)).1

/-- Modelled from the spec §4.1: transform of byte `v`:
`i = (i + 1) mod 256`; `j = (j + S[i]) mod 256`; swap `S[i]` with `S[j]`;
output `v XOR S[(S[i] + S[j]) mod 256]`. -/
def specStep (c : Cipher) (v : Nat) : Cipher × Nat :=
  let i := (c.i + 1) % 256
  let j := (c.j + c.s.getD i 0) % 256
  let s := listSwap c.s i j
  (⟨s, i, j⟩, v ^^^ s.getD ((s.getD i 0 + s.getD j 0) % 256) 0)

/-- Modelled from the spec §4.1: the transform repeated for each byte of
the input. -/
def specTransform (c : Cipher) : List Nat → Cipher × List Nat
  | [] => (c, [])
  | v :: rest =>
    let st := specStep c v
    let next := specTransform st.1 rest
    (next.1, st.2 :: next.2)

theorem getD_lt_256 {s : List Nat} (hs : List.Perm s (List.range 256)) {n : Nat}
    (hn : n < 256) : s.getD n 0 < 256 := by
  have hlen := length_of_perm_range hs
  have hmem : s.getD n 0 ∈ s := by
    rw [List.getD_eq_getElem?_getD, List.getElem?_eq_getElem (by omega)]
    exact List.getElem_mem _
  exact mem_lt_of_perm_range hs _ hmem

theorem xksStep_eq_specStep {c : Cipher} (h : CipherInv c) (v : Nat) :
    xksStep c v = specStep c v := by
  obtain ⟨hs, _, _⟩ := h
  have hlen := length_of_perm_range hs
  have h256 : (0:Nat) < 256 := by norm_num
  have hi : (c.i + 1) % 256 < 256 := Nat.mod_lt _ h256
  have e1 : c.s.getD ((c.i + 1) % 256) 0 % 256 = c.s.getD ((c.i + 1) % 256) 0 :=
    Nat.mod_eq_of_lt (getD_lt_256 hs hi)
  have hs' : List.Perm
      (listSwap c.s ((c.i + 1) % 256) ((c.j + c.s.getD ((c.i + 1) % 256) 0) % 256))
      (List.range 256) :=
    (listSwap_perm _ _ _ (by rw [hlen]; exact hi)
      (by rw [hlen]; exact Nat.mod_lt _ h256)).trans hs
  simp only [xksStep, specStep, e1]
  rw [Nat.mod_eq_of_lt (getD_lt_256 hs' (Nat.mod_lt _ h256))]

theorem xks_eq_specTransform : ∀ (src : List Nat) (c : Cipher), CipherInv c →
    xor_key_stream_generic c src = specTransform c src := by
  intro src
  induction src with
  | nil => intro c _; rfl
  | cons v rest ih =>
    intro c h
    simp only [xor_key_stream_generic, specTransform]
    rw [ih ((xksStep c v).1) (xksStep_inv h v), xksStep_eq_specStep h v]

/-! ## Claim theorems for the keystream -/

/-- C1: for every key of length 1..256 and every byte sequence `M`, and
for every way of chunking `M` at the sender and the transformed stream at
the receiver, transforming the chunks in order with one freshly
constructed `Cipher` seeded with the key and then transforming the
results in order with a second freshly constructed `Cipher` seeded with
the same key yields exactly `M` when concatenated. -/
theorem daze_c1 (key M : List Nat) (c₁ c₂ : Cipher)
    (hc₁ : Cipher.new key = Except.ok c₁) (hc₂ : Cipher.new key = Except.ok c₂)
    (hM : ∀ v ∈ M, v < 256) (P Q : List (List Nat))
    (hP : P.flatten = M) (hQ : Q.flatten = (sendChunks c₁ P).2) :
    (sendChunks c₂ Q).2 = M := by
  have hcc : c₁ = c₂ := by
    rw [hc₁] at hc₂
    exact Except.ok.inj hc₂
  subst hcc
  subst hP
  rw [sendChunks_eq_join, hQ, sendChunks_eq_join, xks_involutive]

theorem daze_c1_witness :
    (sendChunks ⟨ksa [1], 0, 0⟩
      [(sendChunks ⟨ksa [1], 0, 0⟩ [[5], [6]]).2]).2 = [5, 6] :=
  daze_c1 [1] [5, 6] ⟨ksa [1], 0, 0⟩ ⟨ksa [1], 0, 0⟩ rfl rfl (by decide)
    [[5], [6]] [(sendChunks ⟨ksa [1], 0, 0⟩ [[5], [6]]).2] rfl (by simp)

/-- C2 (amended): the construction and `xor_key_stream_generic` implement
exactly the spec's §4.1 key scheduling and per-byte transform; for key
`"Key"` the transform of `"Plaintext"` is `BBF316E8D940AF0AD3` (hex), and
the spec's hex string `EB9F7781B734CA72A719` is the first ten keystream
bytes (the transform of ten zero bytes), not the transform of
`"Plaintext"`. -/
theorem daze_c2 (key : List Nat) (c : Cipher) (hc : Cipher.new key = Except.ok c)
    (src : List Nat) :
    ksa key = specSchedule key
    ∧ xor_key_stream_generic c src = specTransform c src
    ∧ (xor_key_stream_generic ⟨ksa [75, 101, 121], 0, 0⟩
        [80, 108, 97, 105, 110, 116, 101, 120, 116]).2
       = [187, 243, 22, 232, 217, 64, 175, 10, 211]
    ∧ (xor_key_stream_generic ⟨ksa [75, 101, 121], 0, 0⟩
        [0, 0, 0, 0, 0, 0, 0, 0, 0, 0]).2
       = [235, 159, 119, 129, 183, 52, 202, 114, 167, 25] :=
  ⟨rfl, xks_eq_specTransform src c (cipherInv_new hc), by decide, by decide⟩

theorem daze_c2_witness :
    ksa [75, 101, 121] = specSchedule [75, 101, 121]
    ∧ xor_key_stream_generic ⟨ksa [75, 101, 121], 0, 0⟩ [0]
        = specTransform ⟨ksa [75, 101, 121], 0, 0⟩ [0]
    ∧ (xor_key_stream_generic ⟨ksa [75, 101, 121], 0, 0⟩
        [80, 108, 97, 105, 110, 116, 101, 120, 116]).2
       = [187, 243, 22, 232, 217, 64, 175, 10, 211]
    ∧ (xor_key_stream_generic ⟨ksa [75, 101, 121], 0, 0⟩
        [0, 0, 0, 0, 0, 0, 0, 0, 0, 0]).2
       = [235, 159, 119, 129, 183, 52, 202, 114, 167, 25] :=
  daze_c2 [75, 101, 121] ⟨ksa [75, 101, 121], 0, 0⟩ rfl [0]

/-- C2 counterexample: the transform of `"Plaintext"` under key `"Key"` is
not the spec's ten-byte string `EB9F7781B734CA72A719`: the transform is
length-preserving, and `"Plaintext"` has nine bytes. -/
theorem daze_c2_cex :
    (xor_key_stream_generic ⟨ksa [75, 101, 121], 0, 0⟩
      [80, 108, 97, 105, 110, 116, 101, 120, 116]).2
      ≠ [235, 159, 119, 129, 183, 52, 202, 114, 167, 25] := by
  intro h
  have hlen := congrArg List.length h
  rw [xks_snd_length] at hlen
  simp at hlen

/-- C9: immediately after construction from any valid key, and after
every call to `xor_key_stream_generic` on any input, the table `s` is a
permutation of `0..255` and the indices `i`, `j` lie in `0..255`. -/
theorem daze_c9 :
    (∀ (key : List Nat) (c : Cipher), Cipher.new key = Except.ok c → CipherInv c)
    ∧ ∀ (c : Cipher) (src : List Nat), CipherInv c →
        CipherInv (xor_key_stream_generic c src).1 :=
  ⟨fun _ _ h => cipherInv_new h, fun c src h => xks_inv src c h⟩

theorem daze_c9_witness :
    CipherInv ⟨ksa [1], 0, 0⟩
    ∧ CipherInv (xor_key_stream_generic ⟨ksa [1], 0, 0⟩ [7]).1 :=
  ⟨daze_c9.1 [1] ⟨ksa [1], 0, 0⟩ rfl,
   daze_c9.2 ⟨ksa [1], 0, 0⟩ [7] (daze_c9.1 [1] ⟨ksa [1], 0, 0⟩ rfl)⟩

/-! ## List slice helpers -/

theorem take_append_le (l₁ l₂ : List Nat) : ∀ n, n ≤ l₁.length →
    (l₁ ++ l₂).take n = l₁.take n := by
  induction l₁ with
  | nil =>
    intro n h
    have h0 : n = 0 := by simpa using h
    subst h0
    simp
  | cons x t ih =>
    intro n h
    cases n with
    | zero => rfl
    | succ n => simp only [List.cons_append, List.take_succ_cons]; rw [ih n (by simpa using h)]

theorem take_append_ge (l₁ l₂ : List Nat) : ∀ n, l₁.length ≤ n →
    (l₁ ++ l₂).take n = l₁ ++ l₂.take (n - l₁.length) := by
  induction l₁ with
  | nil => intro n _; simp
  | cons x t ih =>
    intro n h
    cases n with
    | zero => simp at h
    | succ n =>
      simp only [List.cons_append, List.take_succ_cons, List.length_cons]
      rw [ih n (by simpa using h)]
      simp [Nat.succ_sub_succ]

theorem drop_append_le (l₁ l₂ : List Nat) : ∀ n, n ≤ l₁.length →
    (l₁ ++ l₂).drop n = l₁.drop n ++ l₂ := by
  induction l₁ with
  | nil =>
    intro n h
    have h0 : n = 0 := by simpa using h
    subst h0
    simp
  | cons x t ih =>
    intro n h
    cases n with
    | zero => rfl
    | succ n => simp only [List.cons_append, List.drop_succ_cons]; rw [ih n (by simpa using h)]

theorem drop_append_ge (l₁ l₂ : List Nat) : ∀ n, l₁.length ≤ n →
    (l₁ ++ l₂).drop n = l₂.drop (n - l₁.length) := by
  induction l₁ with
  | nil => intro n _; simp
  | cons x t ih =>
    intro n h
    cases n with
    | zero => simp at h
    | succ n =>
      simp only [List.cons_append, List.drop_succ_cons, List.length_cons]
      rw [ih n (by simpa using h)]
      simp [Nat.succ_sub_succ]

/-! ## Byte-level helpers shared by client and server -/

/-- Python `int.from_bytes(data, 'big')`. -/
def fromBytesBE (l : List Nat) : Nat :=
  l.foldl (fun a b => a * 256 + b) 0

/-- Big-endian encoding of `n` in exactly `k` bytes (the value
`struct.pack` produces for a width-`k` unsigned format when `n` fits). -/
def toBytesBE : Nat → Nat → List Nat
  | 0, _ => []
  | k + 1, n => toBytesBE k (n / 256) ++ [n % 256]

/-- Python `struct.pack('>I', n)`: raises `struct.error` unless
`0 <= n < 2**32`; `none` models the raise. -/
def structPackGtI (n : Nat) : Option (List Nat) :=
  if n < 2 ^ 32 then some (toBytesBE 4 n) else none

/-- Python `bytes.rjust(8, b'\x00')`: pad on the left with zero bytes up
to width 8. -/
def rjust8 (l : List Nat) : List Nat :=
  List.replicate (8 - l.length) 0 ++ l

/-- Python list slice assignment `data[a:a+len(xs)] = xs` (for
`a ≤ len(data)`): `data[:a] + xs + data[a+len(xs):]`. -/
def setSlice (l : List Nat) (a : Nat) (xs : List Nat) : List Nat :=
  l.take a ++ xs ++ l.drop (a + xs.length)

theorem toBytesBE_length : ∀ (k n : Nat), (toBytesBE k n).length = k := by
  intro k
  induction k with
  | zero => intro n; rfl
  | succ k ih => intro n; simp [toBytesBE, ih]

theorem foldl_toBytesBE (a : Nat) : ∀ (k n : Nat), n < 256 ^ k →
    (toBytesBE k n).foldl (fun x b => x * 256 + b) a = a * 256 ^ k + n := by
  intro k
  induction k generalizing a with
  | zero => intro n h; simp at h; simp [toBytesBE, h]
  | succ k ih =>
    intro n h
    have hdiv : n / 256 < 256 ^ k := by
      rw [Nat.div_lt_iff_lt_mul (by norm_num)]
      calc n < 256 ^ (k + 1) := h
        _ = 256 ^ k * 256 := by ring
    simp only [toBytesBE, List.foldl_append, List.foldl_cons, List.foldl_nil]
    rw [ih a (n / 256) hdiv]
    have := Nat.div_add_mod n 256
    calc (a * 256 ^ k + n / 256) * 256 + n % 256
        = a * (256 ^ k * 256) + (256 * (n / 256) + n % 256) := by ring
    _ = a * 256 ^ (k + 1) + n := by rw [Nat.div_add_mod]; ring_nf

theorem fromBytesBE_rjust8_toBytesBE (n : Nat) (h : n < 2 ^ 32) :
    fromBytesBE (rjust8 (toBytesBE 4 n)) = n := by
  have hlen : (toBytesBE 4 n).length = 4 := toBytesBE_length 4 n
  have : rjust8 (toBytesBE 4 n) = [0, 0, 0, 0] ++ toBytesBE 4 n := by
    rw [rjust8, hlen]
    rfl
  rw [fromBytesBE, this, List.foldl_append]
  have h' : n < 256 ^ 4 := by norm_num at h ⊢; omega
  simpa using foldl_toBytesBE 0 4 n h'

/-! ## Server handshake check, src/daze.py lines 112-122 -/

/-- Lines 117-122 of `Server._serve`: the check on the first deobfuscated
128-byte frame.  `data` is the frame, `now` the server clock in whole
seconds (`datetime.datetime.now().timestamp()`).  An `error` value models
the raised `DazeError`, which closes the session before any destination
is parsed or dialed. -/
def serverCheckHandshake (data : List Nat) (now : Int) : Except String Unit :=
  if data.getD 0 0 ≠ 255 ∨ data.getD 1 0 ≠ 255 then
    Except.error "malformed request"
  else
    let d := fromBytesBE ((data.drop 120).take 8)
    if (now - (d : Int)).natAbs > 60 then
      Except.error "expired"
    else
      Except.ok ()

/-! ## Destination encoding and parsing, src/daze.py lines 123-127 and 173-182 -/

/-- Decimal digit values of `n`, most significant first, computed with a
fuel argument (always at least the value, so the fuel never runs out). -/
def natDigitsBEGo : Nat → Nat → List Nat
  | 0, n => [n]
  | fuel + 1, n => if n < 10 then [n] else natDigitsBEGo fuel (n / 10) ++ [n % 10]

/-- Decimal digit values of `n`, most significant first: the digits of
Python `str(n)` for a nonnegative int. -/
def natDigitsBE (n : Nat) : List Nat :=
  natDigitsBEGo n n

/-- The ASCII bytes of the f-string `f'{host}:{port}'` of
`Client.connect` line 179: the host bytes, a colon, and the decimal
digits of the port. -/
def addressBytes (host : List Nat) (port : Nat) : List Nat :=
  host ++ 58 :: (natDigitsBE port).map (fun d => d + 48)

/-- Python `str.split(':')` at the byte level (byte 58 is `':'`). -/
def splitOnByte (b : Nat) : List Nat → List (List Nat)
  | [] => [[]]
  | x :: xs =>
    let r := splitOnByte b xs
    if x = b then [] :: r
    else
      match r with
      | s :: rest => (x :: s) :: rest
      | [] => [[x]]

/-- Python `int(s)` on the strings that occur here: a nonempty string of
decimal digits parses to its value; anything else (in particular the
empty string) is a `ValueError`, modelled as `none`. -/
def parsePyInt (l : List Nat) : Option Nat :=
  if l ≠ [] ∧ l.all (fun c => decide (48 ≤ c) && decide (c ≤ 57)) then
    some (l.foldl (fun a c => a * 10 + (c - 48)) 0)
  else
    none

/-- Lines 123-127 of `Server._serve`: from the 258-byte deobfuscated
destination frame, take `data[2:2+data[1]]`, split it on `':'`, read the
host from `seps[0]` and the port from `int(seps[1])`.  An `error` models
the raised exception (`IndexError` when there is no colon, `ValueError`
when the port is not an int). -/
def serverParseDest (data : List Nat) : Except String (List Nat × Nat) :=
  let dest := (data.drop 2).take (data.getD 1 0)
  match splitOnByte 58 dest with
  | host :: p :: _ =>
    match parsePyInt p with
    | some port => Except.ok (host, port)
    | none => Except.error "invalid literal for int"
  | _ => Except.error "list index out of range"

/-- Lines 173-182 of `Client.connect`: the 386-byte pre-obfuscation
payload.  `rand` stands for the 386 bytes sampled by
`random.randint(0, 255)`, `now` for
`int(datetime.datetime.now().timestamp())`.  `none` models the
`struct.error` raised by `struct.pack('>I', now)` when `now >= 2**32`. -/
def clientPayload (rand : List Nat) (now : Nat) (host : List Nat) (port : Nat) :
    Option (List Nat) :=
  match structPackGtI now with
  | none => none
  | some packed =>
    let d1 := (rand.set 0 255).set 1 255
    let d2 := setSlice d1 120 (rjust8 packed)
    let d3 := d2.set 128 1
    let address := addressBytes host port
    let d4 := d3.set 129 address.length
    some (setSlice d4 130 address)

/-- C3: a session whose first deobfuscated 128-byte frame does not begin
with `0xFF 0xFF`, or whose big-endian 64-bit timestamp in bytes
[120..128) differs from the server clock by more than 60 seconds, is
rejected (the check raises before any destination is parsed or dialed);
a frame satisfying both conditions passes this step. -/
theorem daze_c3 (data : List Nat) (now : Int) (_hlen : data.length = 128) :
    serverCheckHandshake data now = Except.ok ()
      ↔ (data.getD 0 0 = 255 ∧ data.getD 1 0 = 255
          ∧ (now - (fromBytesBE ((data.drop 120).take 8) : Int)).natAbs ≤ 60) := by
  simp only [serverCheckHandshake]
  split_ifs with h1 h2
  · simp only [reduceCtorEq, false_iff]
    rintro ⟨ha, hb, _⟩
    rcases h1 with h | h
    · exact h ha
    · exact h hb
  · simp only [reduceCtorEq, false_iff]
    rintro ⟨_, _, hc⟩
    omega
  · simp only [true_iff]
    push_neg at h1
    exact ⟨h1.1, h1.2, by omega⟩

theorem daze_c3_witness :
    (List.length (255 :: 255 :: List.replicate 126 0) = 128)
    ∧ (serverCheckHandshake (255 :: 255 :: List.replicate 126 0) 30 = Except.ok ()
        ↔ ((255 :: 255 :: List.replicate 126 0 : List Nat).getD 0 0 = 255
            ∧ (255 :: 255 :: List.replicate 126 0 : List Nat).getD 1 0 = 255
            ∧ ((30 : Int) - (fromBytesBE
                (((255 :: 255 :: List.replicate 126 0 : List Nat).drop 120).take 8) : Int)).natAbs
              ≤ 60)) :=
  ⟨by simp, daze_c3 (255 :: 255 :: List.replicate 126 0) 30 (by simp)⟩

/-! ### Decimal digits and split lemmas -/

theorem natDigitsBEGo_ne_nil : ∀ (fuel n : Nat), natDigitsBEGo fuel n ≠ [] := by
  intro fuel
  induction fuel with
  | zero => intro n; simp [natDigitsBEGo]
  | succ fuel ih =>
    intro n
    rw [natDigitsBEGo]
    split <;> simp

theorem natDigitsBE_ne_nil (n : Nat) : natDigitsBE n ≠ [] :=
  natDigitsBEGo_ne_nil n n

theorem natDigitsBEGo_all_lt : ∀ (fuel n : Nat), n ≤ fuel →
    ∀ d ∈ natDigitsBEGo fuel n, d < 10 := by
  intro fuel
  induction fuel with
  | zero =>
    intro n hn d hd
    simp only [natDigitsBEGo, List.mem_singleton] at hd
    omega
  | succ fuel ih =>
    intro n hn d hd
    rw [natDigitsBEGo] at hd
    split at hd
    · rw [List.mem_singleton] at hd
      omega
    · rw [List.mem_append, List.mem_singleton] at hd
      rcases hd with hd | hd
      · exact ih (n / 10) (by omega) d hd
      · omega

theorem natDigitsBE_all_lt (n : Nat) : ∀ d ∈ natDigitsBE n, d < 10 :=
  natDigitsBEGo_all_lt n n (le_refl n)

theorem foldl_natDigitsBEGo : ∀ (fuel n : Nat), n ≤ fuel → ∀ a : Nat,
    (natDigitsBEGo fuel n).foldl (fun x d => x * 10 + d) a
      = a * 10 ^ (natDigitsBEGo fuel n).length + n := by
  intro fuel
  induction fuel with
  | zero =>
    intro n hn a
    have h0 : n = 0 := by omega
    subst h0
    simp [natDigitsBEGo]
  | succ fuel ih =>
    intro n hn a
    rw [natDigitsBEGo]
    split
    · simp
    · have hlt : n / 10 < n := Nat.div_lt_self (by omega) (by omega)
      simp only [List.foldl_append, List.foldl_cons, List.foldl_nil, List.length_append,
        List.length_singleton]
      rw [ih (n / 10) (by omega) a]
      calc (a * 10 ^ (natDigitsBEGo fuel (n / 10)).length + n / 10) * 10 + n % 10
          = a * (10 ^ (natDigitsBEGo fuel (n / 10)).length * 10)
            + (10 * (n / 10) + n % 10) := by ring
        _ = a * 10 ^ ((natDigitsBEGo fuel (n / 10)).length + 1) + n := by
            rw [Nat.div_add_mod, pow_succ]

theorem foldl_natDigitsBE (n : Nat) : ∀ a : Nat,
    (natDigitsBE n).foldl (fun x d => x * 10 + d) a
      = a * 10 ^ (natDigitsBE n).length + n := by
  intro a
  exact foldl_natDigitsBEGo n n (le_refl n) a

theorem parsePyInt_digits (port : Nat) :
    parsePyInt ((natDigitsBE port).map (fun d => d + 48)) = some port := by
  rw [parsePyInt, if_pos]
  · congr 1
    rw [List.foldl_map]
    have he : ∀ (a d : Nat), a * 10 + (d + 48 - 48) = a * 10 + d := by intro a d; omega
    calc (natDigitsBE port).foldl (fun a d => a * 10 + (d + 48 - 48)) 0
        = (natDigitsBE port).foldl (fun a d => a * 10 + d) 0 := by
          simp only [Nat.add_sub_cancel]
      _ = port := by rw [foldl_natDigitsBE port 0]; simp
  · constructor
    · simp [natDigitsBE_ne_nil port]
    · rw [List.all_eq_true]
      intro c hc
      rw [List.mem_map] at hc
      obtain ⟨d, hd, hdc⟩ := hc
      have := natDigitsBE_all_lt port d hd
      subst hdc
      simp only [Bool.and_eq_true, decide_eq_true_eq]
      omega

theorem splitOnByte_not_mem {b : Nat} : ∀ l : List Nat, b ∉ l →
    splitOnByte b l = [l] := by
  intro l
  induction l with
  | nil => intro _; rfl
  | cons x t ih =>
    intro h
    rw [List.mem_cons, not_or] at h
    rw [splitOnByte, ih h.2, if_neg (fun e => h.1 e.symm)]

theorem splitOnByte_append {b : Nat} : ∀ (xs ys : List Nat), b ∉ xs →
    splitOnByte b (xs ++ b :: ys) = xs :: splitOnByte b ys := by
  intro xs
  induction xs with
  | nil =>
    intro ys _
    simp only [List.nil_append]
    rw [splitOnByte, if_pos rfl]
  | cons x t ih =>
    intro ys h
    rw [List.mem_cons, not_or] at h
    simp only [List.cons_append]
    rw [splitOnByte, ih ys h.2, if_neg (fun e => h.1 e.symm)]

/-- The server-side parse of a destination frame built like the client
builds it: leading command byte, length byte `L`, the address, then any
padding.  With a colon-free host, the parse recovers host and port. -/
theorem serverParseDest_encode (host : List Nat) (port : Nat) (pad : List Nat)
    (hcolon : 58 ∉ host) :
    serverParseDest (1 :: (addressBytes host port).length :: (addressBytes host port ++ pad))
      = Except.ok (host, port) := by
  have hdigits : (58 : Nat) ∉ (natDigitsBE port).map (fun d => d + 48) := by
    intro hmem
    rw [List.mem_map] at hmem
    obtain ⟨d, hd, hdc⟩ := hmem
    have := natDigitsBE_all_lt port d hd
    omega
  rw [serverParseDest]
  simp only [List.getD_cons_succ, List.getD_cons_zero, List.drop_succ_cons, List.drop_zero]
  rw [take_append_le _ _ _ (le_refl _), List.take_length]
  rw [addressBytes, splitOnByte_append host _ hcolon, splitOnByte_not_mem _ hdigits]
  simp only [parsePyInt_digits]

/-! ### Normal form of the client payload -/

theorem rjust8_toBytesBE_length (now : Nat) : (rjust8 (toBytesBE 4 now)).length = 8 := by
  simp [rjust8, toBytesBE_length]

theorem clientPayload_eq (rand : List Nat) (now : Nat) (host : List Nat) (port : Nat)
    (hr : rand.length = 386) (hn : now < 2 ^ 32) :
    clientPayload rand now host port
      = some ([255, 255] ++ (rand.drop 2).take 118 ++ rjust8 (toBytesBE 4 now)
          ++ [1] ++ [(addressBytes host port).length] ++ addressBytes host port
          ++ rand.drop (130 + (addressBytes host port).length)) := by
  have hpack : structPackGtI now = some (toBytesBE 4 now) := by
    rw [structPackGtI, if_pos hn]
  have hT : (rjust8 (toBytesBE 4 now)).length = 8 := rjust8_toBytesBE_length now
  have hA : ((rand.drop 2).take 118).length = 118 := by
    simp [hr]
  have hD : (rand.drop 128).length = 258 := by
    simp [hr]
  have hE : (rand.drop 129).length = 257 := by
    simp [hr]
  have e1 : (rand.set 0 255).set 1 255 = [255, 255] ++ rand.drop 2 := by
    cases rand with
    | nil => simp at hr
    | cons a t =>
      cases t with
      | nil => simp at hr
      | cons b t => rfl
  have e2 : setSlice ([255, 255] ++ rand.drop 2) 120 (rjust8 (toBytesBE 4 now))
      = [255, 255] ++ (rand.drop 2).take 118 ++ rjust8 (toBytesBE 4 now)
        ++ rand.drop 128 := by
    rw [setSlice, hT]
    rw [take_append_ge _ _ 120 (by simp), drop_append_ge _ _ 128 (by simp)]
    simp only [List.length_cons, List.length_nil, List.drop_drop]
  have e3 : ([255, 255] ++ (rand.drop 2).take 118 ++ rjust8 (toBytesBE 4 now)
        ++ rand.drop 128).set 128 1
      = [255, 255] ++ (rand.drop 2).take 118 ++ rjust8 (toBytesBE 4 now)
        ++ [1] ++ rand.drop 129 := by
    simp only [List.append_assoc]
    rw [List.set_append_right _ _ (by simp),
      List.set_append_right _ _ (by simp [hA]),
      List.set_append_right _ _ (by simp [hA, hT])]
    rw [List.set_eq_take_cons_drop 1
      (show 128 - List.length [255, 255] - ((rand.drop 2).take 118).length
          - (rjust8 (toBytesBE 4 now)).length < (rand.drop 128).length by
        simp [hA, hT, hD])]
    simp only [hA, hT, List.length_cons, List.length_nil, List.drop_drop]
    norm_num
  have e4 : ([255, 255] ++ ((rand.drop 2).take 118 ++ (rjust8 (toBytesBE 4 now)
        ++ ([1] ++ rand.drop 129)))).set 129 (addressBytes host port).length
      = [255, 255] ++ (rand.drop 2).take 118 ++ rjust8 (toBytesBE 4 now)
        ++ [1] ++ [(addressBytes host port).length] ++ rand.drop 130 := by
    rw [List.set_append_right _ _ (by simp),
      List.set_append_right _ _ (by simp [hA]),
      List.set_append_right _ _ (by simp [hA, hT]),
      List.set_append_right _ _ (by simp [hA, hT])]
    rw [List.set_eq_take_cons_drop (addressBytes host port).length
      (show 129 - List.length [255, 255] - ((rand.drop 2).take 118).length
          - (rjust8 (toBytesBE 4 now)).length - List.length [1] < (rand.drop 129).length by
        simp [hA, hT, hE])]
    simp only [hA, hT, List.length_cons, List.length_nil, List.drop_drop]
    norm_num
  have e5 : setSlice ([255, 255] ++ ((rand.drop 2).take 118 ++ (rjust8 (toBytesBE 4 now)
        ++ ([1] ++ ([(addressBytes host port).length] ++ rand.drop 130))))) 130
        (addressBytes host port)
      = [255, 255] ++ (rand.drop 2).take 118 ++ rjust8 (toBytesBE 4 now)
        ++ [1] ++ [(addressBytes host port).length] ++ addressBytes host port
        ++ rand.drop (130 + (addressBytes host port).length) := by
    rw [setSlice]
    rw [take_append_ge _ _ 130 (by simp only [hA, hT, List.length_cons, List.length_nil]; omega),
      take_append_ge _ _ _ (by simp only [hA, hT, List.length_cons, List.length_nil]; omega),
      take_append_ge _ _ _ (by simp only [hA, hT, List.length_cons, List.length_nil]; omega),
      take_append_ge _ _ _ (by simp only [hA, hT, List.length_cons, List.length_nil]; omega),
      take_append_ge _ _ _ (by simp only [hA, hT, List.length_cons, List.length_nil]; omega)]
    rw [drop_append_ge _ _ _ (by simp only [hA, hT, List.length_cons, List.length_nil]; omega),
      drop_append_ge _ _ _ (by simp only [hA, hT, List.length_cons, List.length_nil]; omega),
      drop_append_ge _ _ _ (by simp only [hA, hT, List.length_cons, List.length_nil]; omega),
      drop_append_ge _ _ _ (by simp only [hA, hT, List.length_cons, List.length_nil]; omega),
      drop_append_ge _ _ _ (by simp only [hA, hT, List.length_cons, List.length_nil]; omega)]
    simp only [hA, hT, List.length_cons, List.length_nil]
    norm_num
    have hsub : 130 + (addressBytes host port).length - 2 - 118 - 8 - 1 - 1
        = (addressBytes host port).length := by omega
    rw [hsub]
  rw [clientPayload, hpack]
  simp only [e1]
  simp only [List.cons_append, List.nil_append] at e2 ⊢
  rw [e2]
  simp only [List.append_assoc, List.cons_append, List.nil_append] at e3 ⊢
  rw [e3]
  simp only [List.append_assoc, List.cons_append, List.nil_append] at e4 ⊢
  rw [e4]
  simp only [List.append_assoc, List.cons_append, List.nil_append] at e5 ⊢
  rw [e5]

theorem getD_drop_zero (l : List Nat) (n : Nat) : l.getD n 0 = (l.drop n).getD 0 0 := by
  simp [List.getD_eq_getElem?_getD, List.getElem?_drop]

theorem clientPayload_drop120 (rand : List Nat) (now : Nat) (host : List Nat) (port : Nat)
    (P : List Nat) (hr : rand.length = 386) (hn : now < 2 ^ 32)
    (hP : clientPayload rand now host port = some P) :
    P.drop 120 = rjust8 (toBytesBE 4 now)
      ++ (1 :: (addressBytes host port).length
          :: (addressBytes host port
              ++ rand.drop (130 + (addressBytes host port).length))) := by
  rw [clientPayload_eq rand now host port hr hn] at hP
  have hPv := (Option.some.inj hP).symm
  subst hPv
  have hA : ((rand.drop 2).take 118).length = 118 := by simp [hr]
  simp only [List.append_assoc]
  rw [drop_append_ge _ _ 120 (by simp)]
  rw [drop_append_ge _ _ _ (by simp [hA])]
  simp only [hA, List.length_cons, List.length_nil]
  norm_num

theorem clientPayload_drop128 (rand : List Nat) (now : Nat) (host : List Nat) (port : Nat)
    (P : List Nat) (hr : rand.length = 386) (hn : now < 2 ^ 32)
    (hP : clientPayload rand now host port = some P) :
    P.drop 128 = 1 :: (addressBytes host port).length
        :: (addressBytes host port
            ++ rand.drop (130 + (addressBytes host port).length)) := by
  have h120 := clientPayload_drop120 rand now host port P hr hn hP
  have hT : (rjust8 (toBytesBE 4 now)).length = 8 := rjust8_toBytesBE_length now
  have : P.drop 128 = (P.drop 120).drop 8 := by
    rw [List.drop_drop]
  rw [this, h120, List.drop_left' hT]

/-- C4 (amended): for every address `host:port` of length 1..255 whose
host contains no `':'` byte, the server's destination parse of the frame
the client encodes (bytes [128..386) of the payload) recovers exactly the
host and port.  (For hosts containing `':'` — IPv6 literals — the
round-trip fails instead: the server splits on every colon and takes
`seps[0]`/`seps[1]`, so it raises or silently extracts a different
destination; see the counterexample for both modes.) -/
theorem daze_c4 (rand : List Nat) (now : Nat) (host : List Nat) (port : Nat)
    (P : List Nat) (hr : rand.length = 386) (hn : now < 2 ^ 32)
    (hcolon : 58 ∉ host)
    (_hlen1 : 1 ≤ (addressBytes host port).length)
    (_hlen255 : (addressBytes host port).length ≤ 255)
    (hP : clientPayload rand now host port = some P) :
    serverParseDest (P.drop 128) = Except.ok (host, port) := by
  rw [clientPayload_drop128 rand now host port P hr hn hP]
  exact serverParseDest_encode host port _ hcolon

theorem daze_c4_witness :
    58 ∉ ([104, 111, 115, 116] : List Nat)
    ∧ 1 ≤ (addressBytes [104, 111, 115, 116] 80).length
    ∧ (addressBytes [104, 111, 115, 116] 80).length ≤ 255
    ∧ ∀ P : List Nat,
        clientPayload (List.replicate 386 7) 5 [104, 111, 115, 116] 80 = some P →
        serverParseDest (P.drop 128) = Except.ok ([104, 111, 115, 116], 80) := by
  refine ⟨by decide, by decide, by decide, ?_⟩
  intro P hP
  exact daze_c4 (List.replicate 386 7) 5 [104, 111, 115, 116] 80 P (by simp) (by norm_num)
    (by decide) (by decide) (by decide) hP

/-- C4 counterexample: for hosts containing `':'` the server does not
extract the client-sent host and port.  For host `"::1"`, port 80, the
address `"::1:80"` splits to `['', '', '1', '80']`, `seps[1]` is empty,
and `int('')` raises; for host `"1:2:3:4:5:6:7:8"`, port 80, the split
gives `seps[0] = '1'`, `seps[1] = '2'`, and the server silently parses
the wrong destination host `"1"`, port 2. -/
theorem daze_c4_cex :
    (clientPayload (List.replicate 386 0) 0 [58, 58, 49] 80).map
        (fun P => serverParseDest (P.drop 128))
      = some (Except.error "invalid literal for int")
    ∧ (clientPayload (List.replicate 386 0) 0 [58, 58, 49] 80).map
        (fun P => serverParseDest (P.drop 128))
      ≠ some (Except.ok ([58, 58, 49], 80))
    ∧ (clientPayload (List.replicate 386 0) 0
          [49, 58, 50, 58, 51, 58, 52, 58, 53, 58, 54, 58, 55, 58, 56] 80).map
        (fun P => serverParseDest (P.drop 128))
      = some (Except.ok ([49], 2))
    ∧ (clientPayload (List.replicate 386 0) 0
          [49, 58, 50, 58, 51, 58, 52, 58, 53, 58, 54, 58, 55, 58, 56] 80).map
        (fun P => serverParseDest (P.drop 128))
      ≠ some (Except.ok
          ([49, 58, 50, 58, 51, 58, 52, 58, 53, 58, 54, 58, 55, 58, 56], 80)) := by
  have h1 : (clientPayload (List.replicate 386 0) 0 [58, 58, 49] 80).map
      (fun P => serverParseDest (P.drop 128))
      = some (Except.error "invalid literal for int") := by rfl
  have h2 : (clientPayload (List.replicate 386 0) 0
        [49, 58, 50, 58, 51, 58, 52, 58, 53, 58, 54, 58, 55, 58, 56] 80).map
      (fun P => serverParseDest (P.drop 128))
      = some (Except.ok ([49], 2)) := by rfl
  refine ⟨h1, ?_, h2, ?_⟩
  · rw [h1]
    simp
  · rw [h2]
    simp

/-- C6: the 386-byte pre-obfuscation payload for destination
`(host, port)` has `P[0] = P[1] = 0xFF`; bytes [120..128) hold the
current UNIX time as a big-endian 64-bit integer with the top four bytes
zero; `P[128] = 1`; `P[129] = L`, the byte length of `host:port`; and
bytes [130..130+L) are that ASCII address. -/
theorem daze_c6 (rand : List Nat) (now : Nat) (host : List Nat) (port : Nat)
    (P : List Nat) (hr : rand.length = 386) (hn : now < 2 ^ 32)
    (hlen255 : (addressBytes host port).length ≤ 255)
    (hP : clientPayload rand now host port = some P) :
    P.getD 0 0 = 255 ∧ P.getD 1 0 = 255
    ∧ fromBytesBE ((P.drop 120).take 8) = now
    ∧ ((P.drop 120).take 8).take 4 = [0, 0, 0, 0]
    ∧ P.getD 128 0 = 1
    ∧ P.getD 129 0 = (addressBytes host port).length
    ∧ (P.drop 130).take (addressBytes host port).length = addressBytes host port
    ∧ P.length = 386 := by
  have hT : (rjust8 (toBytesBE 4 now)).length = 8 := rjust8_toBytesBE_length now
  have h120 := clientPayload_drop120 rand now host port P hr hn hP
  have h128 := clientPayload_drop128 rand now host port P hr hn hP
  have htake8 : (P.drop 120).take 8 = rjust8 (toBytesBE 4 now) := by
    rw [h120, take_append_le _ _ 8 (by rw [hT]), ← hT, List.take_length]
  have h130 : P.drop 130 = addressBytes host port
      ++ rand.drop (130 + (addressBytes host port).length) := by
    have : P.drop 130 = (P.drop 128).drop 2 := by rw [List.drop_drop]
    rw [this, h128]
    rfl
  rw [clientPayload_eq rand now host port hr hn] at hP
  have hPv := (Option.some.inj hP).symm
  refine ⟨?_, ?_, ?_, ?_, ?_, ?_, ?_, ?_⟩
  · rw [hPv]; rfl
  · rw [hPv]; rfl
  · rw [htake8]
    exact fromBytesBE_rjust8_toBytesBE now hn
  · rw [htake8, rjust8, toBytesBE_length]
    norm_num
    rfl
  · rw [getD_drop_zero, h128]
    rfl
  · have : P.getD 129 0 = (P.drop 128).getD 1 0 := by
      rw [getD_drop_zero P 129, getD_drop_zero (P.drop 128) 1, List.drop_drop]
    rw [this, h128]
    rfl
  · rw [h130, take_append_le _ _ _ (le_refl _), List.take_length]
  · rw [hPv]
    simp only [List.length_append, List.length_cons, List.length_nil, List.length_take,
      List.length_drop, hr]
    omega

theorem daze_c6_witness :
    (List.replicate 386 9 : List Nat).length = 386
    ∧ (5 : Nat) < 2 ^ 32
    ∧ (addressBytes [104] 80).length ≤ 255
    ∧ ∀ P : List Nat, clientPayload (List.replicate 386 9) 5 [104] 80 = some P →
        (P.getD 0 0 = 255 ∧ P.getD 1 0 = 255
          ∧ fromBytesBE ((P.drop 120).take 8) = 5
          ∧ ((P.drop 120).take 8).take 4 = [0, 0, 0, 0]
          ∧ P.getD 128 0 = 1
          ∧ P.getD 129 0 = (addressBytes [104] 80).length
          ∧ (P.drop 130).take (addressBytes [104] 80).length = addressBytes [104] 80
          ∧ P.length = 386) := by
  refine ⟨by simp, by norm_num, by decide, ?_⟩
  intro P hP
  exact daze_c6 (List.replicate 386 9) 5 [104] 80 P (by simp) (by norm_num) (by decide) hP

/-! ## Dialer, src/daze.py lines 271-303 -/

/-- Embedding of `Dialer.surmise` (lines 271-284).  External effects are oracle
parameters: `ipParse` is the outcome of `ipaddress.ip_address(host)`
(`error` = `ValueError`, i.e. the host is not an IP literal), `queryAns`
the outcome of `self.res.query(host)` (`error` = the resolver raised,
`ok` = the returned answer list).  `isPrivate` is `ip.is_private`,
`memCidr` the `ip in cidr` test, `cidrList` is `self.cidr_list`.  An
`error` result is the uncaught exception propagating out of `surmise`. -/
def surmise {Ip Cidr : Type} (isPrivate : Ip → Bool) (memCidr : Ip → Cidr → Bool)
    (cidrList : List Cidr) (ipParse : Except Unit Ip)
    (queryAns : Except Unit (List Ip)) : Except Unit Nat :=
  match ipParse with
  | Except.ok ip =>
    if isPrivate ip then Except.ok 0
    else if cidrList.any (fun cidr => memCidr ip cidr) then Except.ok 0
    else Except.ok 1
  | Except.error _ =>
    match queryAns with
    | Except.error e => Except.error e
    | Except.ok [] => Except.ok 2
    | Except.ok (ip :: _) =>
      if isPrivate ip then Except.ok 0
      else if cidrList.any (fun cidr => memCidr ip cidr) then Except.ok 0
      else Except.ok 1

/-- Embedding of `Dialer.connect` (lines 286-303): dispatch on the road from
`surmise`; `directDial` is the outcome of dialing `(host, port)`
directly, `clientConnect` of `self.client.connect(host, port)`.
`ok none` models the final fall-through `else: pass` returning `None`. -/
def Dialer.connect {Ip Cidr Conn : Type} (isPrivate : Ip → Bool)
    (memCidr : Ip → Cidr → Bool) (cidrList : List Cidr)
    (ipParse : Except Unit Ip) (queryAns : Except Unit (List Ip))
    (directDial : Except Unit Conn) (clientConnect : Except Unit Conn) :
    Except Unit (Option Conn) :=
  match surmise isPrivate memCidr cidrList ipParse queryAns with
  | Except.error e => Except.error e
  | Except.ok road =>
    if road = 0 then directDial.map some
    else if road = 1 then clientConnect.map some
    else if road = 2 then
      match directDial with
      | Except.ok s => Except.ok (some s)
      | Except.error _ => clientConnect.map some
    else Except.ok none

theorem surmise_ok_cases {Ip Cidr : Type} (isPrivate : Ip → Bool)
    (memCidr : Ip → Cidr → Bool) (cidrList : List Cidr) (ipParse : Except Unit Ip)
    (queryAns : Except Unit (List Ip)) (r : Nat)
    (h : surmise isPrivate memCidr cidrList ipParse queryAns = Except.ok r) :
    r = 0 ∨ r = 1 ∨ r = 2 := by
  cases ipParse with
  | ok ip =>
    simp only [surmise] at h
    split_ifs at h <;> (injection h with h2; omega)
  | error e =>
    cases queryAns with
    | error eq =>
      simp only [surmise] at h
      cases h
    | ok ans =>
      cases ans with
      | nil =>
        simp only [surmise] at h
        injection h with h2
        omega
      | cons ip rest =>
        simp only [surmise] at h
        split_ifs at h <;> (injection h with h2; omega)

/-- C5 (amended): the complete case analysis of `Dialer.surmise`.  For an
IP literal: private → 0 (DIRECT), in the CIDR table → 0, else → 1
(TUNNELED).  For a resolved name the same three cases apply to the first
answer.  If the DNS query returns an *empty* answer the result is 2
(TRY_DIRECT_ELSE_TUNNELED); but if the DNS query *raises* — which is how
the resolver library reports failed resolution — the exception
propagates out of `surmise` instead of producing the decision 2. -/
theorem daze_c5 {Ip Cidr : Type} (isPrivate : Ip → Bool) (memCidr : Ip → Cidr → Bool)
    (cidrList : List Cidr) (ipParse : Except Unit Ip)
    (queryAns : Except Unit (List Ip)) :
    (∀ ip, ipParse = Except.ok ip → isPrivate ip = true →
      surmise isPrivate memCidr cidrList ipParse queryAns = Except.ok 0)
    ∧ (∀ ip, ipParse = Except.ok ip →
        cidrList.any (fun cidr => memCidr ip cidr) = true →
        surmise isPrivate memCidr cidrList ipParse queryAns = Except.ok 0)
    ∧ (∀ ip, ipParse = Except.ok ip → isPrivate ip = false →
        cidrList.any (fun cidr => memCidr ip cidr) = false →
        surmise isPrivate memCidr cidrList ipParse queryAns = Except.ok 1)
    ∧ (∀ e eq, ipParse = Except.error e → queryAns = Except.error eq →
        surmise isPrivate memCidr cidrList ipParse queryAns = Except.error eq)
    ∧ (∀ e, ipParse = Except.error e → queryAns = Except.ok [] →
        surmise isPrivate memCidr cidrList ipParse queryAns = Except.ok 2)
    ∧ (∀ e ip rest, ipParse = Except.error e → queryAns = Except.ok (ip :: rest) →
        isPrivate ip = true →
        surmise isPrivate memCidr cidrList ipParse queryAns = Except.ok 0)
    ∧ (∀ e ip rest, ipParse = Except.error e → queryAns = Except.ok (ip :: rest) →
        cidrList.any (fun cidr => memCidr ip cidr) = true →
        surmise isPrivate memCidr cidrList ipParse queryAns = Except.ok 0)
    ∧ (∀ e ip rest, ipParse = Except.error e → queryAns = Except.ok (ip :: rest) →
        isPrivate ip = false → cidrList.any (fun cidr => memCidr ip cidr) = false →
        surmise isPrivate memCidr cidrList ipParse queryAns = Except.ok 1) := by
  refine ⟨?_, ?_, ?_, ?_, ?_, ?_, ?_, ?_⟩
  · intro ip hp hpriv
    subst hp
    simp [surmise, hpriv]
  · intro ip hp hc
    subst hp
    simp [surmise, hc]
  · intro ip hp hpriv hc
    subst hp
    simp [surmise, hpriv, hc]
  · intro e eq hp hq
    subst hp
    subst hq
    simp [surmise]
  · intro e hp hq
    subst hp
    subst hq
    simp [surmise]
  · intro e ip rest hp hq hpriv
    subst hp
    subst hq
    simp [surmise, hpriv]
  · intro e ip rest hp hq hc
    subst hp
    subst hq
    simp [surmise, hc]
  · intro e ip rest hp hq hpriv hc
    subst hp
    subst hq
    simp [surmise, hpriv, hc]

theorem daze_c5_witness :
    surmise (fun _ : Nat => true) (fun _ _ : Nat => false) ([] : List Nat)
      (Except.ok 7) (Except.ok []) = Except.ok 0
    ∧ surmise (fun _ : Nat => false) (fun _ _ : Nat => false) ([] : List Nat)
        (Except.error ()) (Except.ok []) = Except.ok 2 :=
  ⟨(daze_c5 (fun _ : Nat => true) (fun _ _ : Nat => false) [] (Except.ok 7)
      (Except.ok [])).1 7 rfl rfl,
   (daze_c5 (fun _ : Nat => false) (fun _ _ : Nat => false) [] (Except.error ())
      (Except.ok [])).2.2.2.2.1 () rfl rfl⟩

/-- C5 counterexample: when the host is not an IP literal and the DNS
query raises (the resolver library's behavior for failed resolution),
`surmise` propagates the exception; it does not return the decision 2. -/
theorem daze_c5_cex :
    surmise (fun _ : Nat => false) (fun _ _ : Nat => false) ([] : List Nat)
      (Except.error ()) (Except.error ())
      = Except.error ()
    ∧ surmise (fun _ : Nat => false) (fun _ _ : Nat => false) ([] : List Nat)
        (Except.error ()) (Except.error ())
      ≠ Except.ok 2 := by
  refine ⟨rfl, ?_⟩
  intro h
  simp [surmise] at h

/-- C10: whenever `Dialer.surmise` returns (rather than raising), the
value is one of 0, 1, 2; consequently `Dialer.connect` never reaches its
final fall-through branch: it either produces a connection or an
exception, and never returns `None`. -/
theorem daze_c10 {Ip Cidr Conn : Type} (isPrivate : Ip → Bool)
    (memCidr : Ip → Cidr → Bool) (cidrList : List Cidr)
    (ipParse : Except Unit Ip) (queryAns : Except Unit (List Ip))
    (directDial : Except Unit Conn) (clientConnect : Except Unit Conn) :
    (∀ r, surmise isPrivate memCidr cidrList ipParse queryAns = Except.ok r →
      r = 0 ∨ r = 1 ∨ r = 2)
    ∧ Dialer.connect isPrivate memCidr cidrList ipParse queryAns directDial clientConnect
        ≠ Except.ok none := by
  constructor
  · intro r h
    exact surmise_ok_cases isPrivate memCidr cidrList ipParse queryAns r h
  · intro hc
    cases hs : surmise isPrivate memCidr cidrList ipParse queryAns with
    | error e =>
      simp only [Dialer.connect, hs] at hc
      exact Except.noConfusion hc
    | ok road =>
      have hroad := surmise_ok_cases isPrivate memCidr cidrList ipParse queryAns road hs
      simp only [Dialer.connect, hs] at hc
      split_ifs at hc with h0 h1 h2
      · cases directDial <;> simp [Except.map] at hc
      · cases clientConnect <;> simp [Except.map] at hc
      · cases directDial with
        | ok s => simp at hc
        | error e => cases clientConnect <;> simp [Except.map] at hc
      · omega

theorem daze_c10_witness :
    (∀ r, surmise (fun _ : Nat => false) (fun _ _ : Nat => false) ([] : List Nat)
        (Except.ok 3) (Except.ok []) = Except.ok r → r = 0 ∨ r = 1 ∨ r = 2)
    ∧ Dialer.connect (fun _ : Nat => false) (fun _ _ : Nat => false) ([] : List Nat)
        (Except.ok 3) (Except.ok []) (Except.ok 5) (Except.ok 6)
        ≠ Except.ok (none : Option Nat) :=
  daze_c10 (fun _ : Nat => false) (fun _ _ : Nat => false) [] (Except.ok 3)
    (Except.ok []) (Except.ok 5) (Except.ok 6)

/-! ## SOCKS5 ingress, src/daze.py lines 196-216 -/

/-- The destination host of a SOCKS5 CONNECT request as `Locale._serve`
builds it: the `ipaddress` pretty-printing of IPv4/IPv6 addresses is
modelled by tagging the raw address bytes. -/
inductive SocksHost where
  | v4 (bytes : List Nat)
  | dom (bytes : List Nat)
  | v6 (bytes : List Nat)
  deriving Repr, DecidableEq

/-- Embedding of `Locale._serve` from the request read onward (lines 201-216): read 4
bytes `[VER, CMD, RSV, ATYP]`, branch on ATYP (`data[3]`; `data[1]` —
CMD — is never examined), read the address, then 2 port bytes.  Returns
the `(host, port)` handed to `self.dialer.connect`, or the
`DazeError('unsupported dst')`. -/
def localeAfterGreeting (s2 : List Nat) : Except String (SocksHost × Nat) :=
  let req := s2.take 4
  let s3 := s2.drop 4
  let hostRes : Except String (SocksHost × List Nat) :=
    if req.getD 3 0 = 1 then
      Except.ok (SocksHost.v4 (s3.take 4), s3.drop 4)
    else if req.getD 3 0 = 3 then
      let len := (s3.take 1).getD 0 0
      Except.ok (SocksHost.dom ((s3.drop 1).take len), (s3.drop 1).drop len)
    else if req.getD 3 0 = 4 then
      Except.ok (SocksHost.v6 (s3.take 16), s3.drop 16)
    else
      Except.error "unsupported dst"
  match hostRes with
  | Except.error e => Except.error e
  | Except.ok (host, s4) =>
    let p := s4.take 2
    Except.ok (host, p.getD 0 0 * 256 + p.getD 1 0)

/-- Embedding of `Locale._serve` (lines 196-216): the greeting (2 bytes, then
NMETHODS method bytes, then the `\x05\x00` reply) followed by the
request parse.  Socket reads are modelled as exact reads from the front
of the byte stream. -/
def localeParseRequest (stream : List Nat) : Except String (SocksHost × Nat) :=
  localeAfterGreeting ((stream.drop 2).drop ((stream.take 2).getD 1 0))

theorem localeParseRequest_greeting (v n : Nat) (methods : List Nat)
    (hm : methods.length = n) (X : List Nat) :
    localeParseRequest (v :: n :: (methods ++ X)) = localeAfterGreeting X := by
  rw [localeParseRequest]
  congr 1
  show (methods ++ X).drop n = X
  exact List.drop_left' hm

theorem localeAfterGreeting_unsupported (ver cmd rsv atyp : Nat) (rest : List Nat)
    (h1 : atyp ≠ 1) (h3 : atyp ≠ 3) (h4 : atyp ≠ 4) :
    localeAfterGreeting (ver :: cmd :: rsv :: atyp :: rest)
      = Except.error "unsupported dst" := by
  simp only [localeAfterGreeting]
  have hreq : (List.take 4 (ver :: cmd :: rsv :: atyp :: rest)).getD 3 0 = atyp := rfl
  rw [hreq, if_neg h1, if_neg h3, if_neg h4]

/-- C7 (amended): the SOCKS5 ingress never examines the CMD byte — every
request parses the same way whatever CMD is (in particular CMD ≠ 1 is
not rejected and still leads to a dial); the only rejection at this
stage is an unsupported ATYP (not 1, 3 or 4). -/
theorem daze_c7 (v n : Nat) (methods : List Nat) (hm : methods.length = n)
    (ver cmd rsv atyp : Nat) (rest : List Nat) :
    localeParseRequest (v :: n :: (methods ++ ver :: cmd :: rsv :: atyp :: rest))
      = localeParseRequest (v :: n :: (methods ++ ver :: 1 :: rsv :: atyp :: rest))
    ∧ (atyp ≠ 1 → atyp ≠ 3 → atyp ≠ 4 →
        localeParseRequest (v :: n :: (methods ++ ver :: cmd :: rsv :: atyp :: rest))
          = Except.error "unsupported dst") := by
  constructor
  · rw [localeParseRequest_greeting v n methods hm,
      localeParseRequest_greeting v n methods hm]
    rfl
  · intro h1 h3 h4
    rw [localeParseRequest_greeting v n methods hm]
    exact localeAfterGreeting_unsupported ver cmd rsv atyp rest h1 h3 h4

theorem daze_c7_witness :
    ([0] : List Nat).length = 1
    ∧ localeParseRequest (5 :: 1 :: ([0] ++ 5 :: 9 :: 0 :: 7 :: []))
        = localeParseRequest (5 :: 1 :: ([0] ++ 5 :: 1 :: 0 :: 7 :: []))
    ∧ localeParseRequest (5 :: 1 :: ([0] ++ 5 :: 9 :: 0 :: 7 :: []))
        = Except.error "unsupported dst" :=
  ⟨rfl, (daze_c7 5 1 [0] rfl 5 9 0 7 []).1,
   (daze_c7 5 1 [0] rfl 5 9 0 7 []).2 (by decide) (by decide) (by decide)⟩

/-- C7 counterexample: a well-formed CONNECT-shaped request whose CMD
byte is 2 (BIND) is not rejected: the parse succeeds and the ingress
proceeds to dial 127.0.0.1:80 upstream. -/
theorem daze_c7_cex :
    (([5, 1, 0, 5, 2, 0, 1, 127, 0, 0, 1, 0, 80] : List Nat).drop 3).getD 1 0 = 2
    ∧ localeParseRequest [5, 1, 0, 5, 2, 0, 1, 127, 0, 0, 1, 0, 80]
        = Except.ok (SocksHost.v4 [127, 0, 0, 1], 80) :=
  ⟨rfl, rfl⟩

/-! ## The copy loop of Splice, src/daze.py lines 84-97 -/

/-- The outcome of one `src.recv` call inside `copy`: the read raises,
or returns a chunk of bytes (the empty chunk is end-of-stream). -/
inductive ReadEv where
  | rerr
  | rdata (bytes : List Nat)
  deriving Repr, DecidableEq

/-- What `copy` did by the time it returns: whether `src.close()` and
`dst.close()` ran, and which chunks were forwarded to `dst.send`. -/
structure CopyResult where
  srcClosed : Bool
  dstClosed : Bool
  forwarded : List (List Nat)
  deriving Repr, DecidableEq

/-- The loop of `copy` (lines 85-95) threaded over the sequence of read
outcomes; `sendOk k` tells whether the `k`-th `dst.send` returns rather
than raises.  After the loop breaks — read error, end-of-stream, or
send error — both `src.close()` and `dst.close()` run (lines 96-97).
`none` models the case where the outcome list is exhausted with the
loop still blocked in `recv`: `copy` has not returned. -/
def copyRun : List ReadEv → (Nat → Bool) → Nat → List (List Nat) → Option CopyResult
  | [], _, _, _ => none
  | ReadEv.rerr :: _, _, _, acc => some ⟨true, true, acc.reverse⟩
  | ReadEv.rdata [] :: _, _, _, acc => some ⟨true, true, acc.reverse⟩
  | ReadEv.rdata d :: evs, sendOk, k, acc =>
    if sendOk k then copyRun evs sendOk (k + 1) (d :: acc)
    else some ⟨true, true, acc.reverse⟩

/-- Embedding of `copy(src, dst)` (lines 84-97). -/
def copy (reads : List ReadEv) (sendOk : Nat → Bool) : Option CopyResult :=
  copyRun reads sendOk 0 []

theorem copyRun_closes : ∀ (reads : List ReadEv) (sendOk : Nat → Bool) (k : Nat)
    (acc : List (List Nat)) (r : CopyResult),
    copyRun reads sendOk k acc = some r → r.srcClosed = true ∧ r.dstClosed = true := by
  intro reads
  induction reads with
  | nil =>
    intro sendOk k acc r h
    cases h
  | cons ev rest ih =>
    intro sendOk k acc r h
    cases ev with
    | rerr =>
      cases h
      exact ⟨rfl, rfl⟩
    | rdata d =>
      cases d with
      | nil =>
        cases h
        exact ⟨rfl, rfl⟩
      | cons b bs =>
        have h2 : (if sendOk k then copyRun rest sendOk (k + 1) ((b :: bs) :: acc)
            else some ⟨true, true, acc.reverse⟩) = some r := h
        split_ifs at h2 with hs
        · exact ih sendOk (k + 1) ((b :: bs) :: acc) r h2
        · cases h2
          exact ⟨rfl, rfl⟩

/-- C8: whenever the copy loop returns — end-of-stream, read error, or
send error — both the source stream and the destination stream have been
closed. -/
theorem daze_c8 (reads : List ReadEv) (sendOk : Nat → Bool) (r : CopyResult)
    (h : copy reads sendOk = some r) :
    r.srcClosed = true ∧ r.dstClosed = true :=
  copyRun_closes reads sendOk 0 [] r h

theorem daze_c8_witness :
    (CopyResult.mk true true []).srcClosed = true
    ∧ (CopyResult.mk true true []).dstClosed = true :=
  daze_c8 [ReadEv.rerr] (fun _ => true) ⟨true, true, []⟩ rfl

end Daze
